import Mathlib

/-!
Verification of the target-assembly core of a Rust → CIL code generator.

The development shallowly embeds the data model and the algorithms of the
repository: the opcode model (`CILOp`) with its stack algebra and branch
retargeting, the method model with the temporary-local allocation pass,
the type-definition factories and field-name escaping, the linker's
autopatch pass, and the legacy assembly's size computation and link
operation.  Rust `u32`/`usize` indices are modelled as `Nat`, `i32`/`i64`
constants as `Int`, `f32`/`f64` payloads as their carrier bit patterns
(`Nat`); panics (`expect`, out-of-range indexing) are modelled as `none`
or `Except.error`.
-/

/-- Modelled from the spec: access modifiers carried by methods and type
definitions (the `access_modifier` module is not part of the sources;
only `Private` and `Public` are used by the embedded code). -/
inductive AccessModifer where
  | Private
  | Public
deriving DecidableEq

/-- A reference to a .NET type: optional declaring assembly name, type
name, and value-type flag.  Modelled from the spec: the `DotnetTypeRef`
definition is not under the sources; its construction sites
(`DotnetTypeRef::new`, `set_valuetype`) fix these three components. -/
structure DotnetTypeRef where
  asmName : Option String
  name : String
  valuetype : Bool
deriving DecidableEq

/-- Modelled from the spec: `DotnetTypeRef::new(asm, name)` (its source
file is absent; value-type by default, callers clear the flag with
`set_valuetype(false)`). -/
def DotnetTypeRef.new (asmName : Option String) (name : String) : DotnetTypeRef :=
  { asmName := asmName, name := name, valuetype := true }

/-- Modelled from the spec: the type model `crate::r#type::Type` (§3) —
void, fixed-width signed/unsigned integers, floats, bool, pointers,
references, named .NET types and generic parameters.  The `Type` source
file is not under the sources; the variants used by the embedded code
(`Void`, `Bool`, `U32`, `USize`, `Ptr`, `DotnetType`, …) appear here with
the spec's remaining variants.  Named `Ty` because `Type` is reserved in
Lean. -/
inductive Ty where
  | Void
  | Bool
  | I8 | I16 | I32 | I64 | I128 | ISize
  | U8 | U16 | U32 | U64 | U128 | USize
  | F32 | F64
  | Ptr (pointed : Ty)
  | Ref (pointed : Ty)
  | DotnetType (tref : DotnetTypeRef)
  | GenericArg (index : Nat)
deriving DecidableEq

/-- Source `FnSig`: ordered input types and a single output type. -/
structure FnSig where
  inputs : List Ty
  output : Ty
deriving DecidableEq

/-- A call site: optional declaring class, method name, signature, and
static flag (glossary: "the tuple (optional declaring type, method name,
signature, static flag) identifying a callee").  The field `cls` renders
the source's `class`, a reserved word in Lean. -/
structure CallSite where
  cls : Option DotnetTypeRef
  name : String
  signature : FnSig
  is_static : Bool
deriving DecidableEq

/-- Source `CallSite::new` / `CallSite::boxed` (boxing erased). -/
def CallSite.new (cls : Option DotnetTypeRef) (name : String) (signature : FnSig)
    (is_static : Bool) : CallSite :=
  { cls := cls, name := name, signature := signature, is_static := is_static }

/-- Modelled from the spec: `CallSite::explicit_inputs` (its source file is
absent) — "Call pops each explicit input"; for instance methods the first
input is the receiver (§3), so explicit inputs drop it. -/
def CallSite.explicit_inputs (site : CallSite) : List Ty :=
  if site.is_static then site.signature.inputs else site.signature.inputs.drop 1

/-- A field descriptor: owning type, field type, field name (constructor
`FieldDescriptor::boxed(owner, type, name)`, boxing erased). -/
structure FieldDescriptor where
  owner : DotnetTypeRef
  tpe : Ty
  name : String
deriving DecidableEq

/-- Source `FieldDescriptor::boxed` (boxing erased). -/
def FieldDescriptor.boxed (owner : DotnetTypeRef) (tpe : Ty) (name : String) :
    FieldDescriptor :=
  { owner := owner, tpe := tpe, name := name }

/-- A static field descriptor (owning assembly's type erased to name/type,
mirroring the payload's role as opaque data in the embedded code). -/
structure StaticFieldDescriptor where
  tpe : Ty
  name : String
deriving DecidableEq

/-- Source `CILOp`: the opcode model, one constructor per source variant.  Boxes
are erased; `u32` jump targets and indices are `Nat`, `i32`/`i64`
constants are `Int`, `f32`/`f64` payloads carry their bit patterns as
`Nat`, `u8` depths are `Nat`. -/
inductive CILOp where
  -- Control flow
  | Label (id : Nat)
  | GoTo (target : Nat)
  | BEq (target : Nat)
  | BNe (target : Nat)
  | BLt (target : Nat)
  | BGe (target : Nat)
  | BLe (target : Nat)
  | BZero (target : Nat)
  | BTrue (target : Nat)
  | Call (site : CallSite)
  | CallVirt (site : CallSite)
  | Throw
  | Rethrow
  | Ret
  -- Load/Store/AddressOf locals
  | LDLoc (n : Nat)
  | LDArg (n : Nat)
  | STLoc (n : Nat)
  | STArg (n : Nat)
  | LDLocA (n : Nat)
  | LDArgA (n : Nat)
  -- Synthetic ops
  | NewTMPLocal (tpe : Ty)
  | FreeTMPLocal
  | LoadTMPLocal
  | LoadUnderTMPLocal (under : Nat)
  | LoadAdressUnderTMPLocal (under : Nat)
  | LoadAddresOfTMPLocal
  | SetTMPLocal
  | LoadGlobalAllocPtr (alloc_id : Nat)
  -- Constants
  | LdcI32 (value : Int)
  | LdcI64 (value : Int)
  | LdcF32 (bits : Nat)
  | LdcF64 (bits : Nat)
  | LdStr (value : String)
  | LdNull
  -- Conversions
  | ConvI8 (checked : Bool)
  | ConvI16 (checked : Bool)
  | ConvI32 (checked : Bool)
  | ConvI64 (checked : Bool)
  | ConvISize (checked : Bool)
  | ConvU8 (checked : Bool)
  | ConvU16 (checked : Bool)
  | ConvU32 (checked : Bool)
  | ConvU64 (checked : Bool)
  | ConvUSize (checked : Bool)
  | ConvF32 (checked : Bool)
  | ConvF64 (checked : Bool)
  -- Pointer loads/stores
  | LDIndI8
  | LDIndI16
  | LDIndI32
  | LDIndI64
  | LDIndISize
  | LDIndF32
  | LDIndF64
  | LDIndRef
  | STIndI8
  | STIndI16
  | STIndI32
  | STIndI64
  | STIndISize
  | STIndF32
  | STIndF64
  -- Debugging
  | Comment (text : String)
  -- Arithmetic
  | Add
  | AddOvf
  | AddOvfUn
  | And
  | Div
  | Rem
  | Shr
  | Shl
  | Sub
  | SubOvf
  | SubOvfUn
  | Mul
  | MulOvf
  | Or
  | XOr
  | Not
  | Neg
  -- Comparisons
  | Eq
  | Lt
  | Gt
  -- Special
  | Pop
  | Dup
  | Nop
  | LocAlloc
  -- OOP
  | NewObj (site : CallSite)
  | LDField (fd : FieldDescriptor)
  | LDFieldAdress (fd : FieldDescriptor)
  | STField (fd : FieldDescriptor)
  | LdObj (tpe : Ty)
  | STObj (tpe : Ty)
  | SizeOf (tpe : Ty)
  | LDStaticField (fd : StaticFieldDescriptor)
  | STStaticField (fd : StaticFieldDescriptor)
  | CpBlk

/-- The guarded target update shared by every arm of
`CILOp::replace_target`: `if orignal == *target { *target = replacement }`. -/
def targetUpdate (target orignal replacement : Nat) : Nat :=
  if orignal = target then replacement else target

/-- Source `CILOp::replace_target` - if `self` is a branch whose target is
`orignal`, replace the target with `replacement`; otherwise leave the op
unchanged (functional rendering of the in-place mutation). -/
def CILOp.replace_target (op : CILOp) (orignal replacement : Nat) : CILOp :=
  match op with
  | .GoTo target => .GoTo (targetUpdate target orignal replacement)
  | .BEq target => .BEq (targetUpdate target orignal replacement)
  | .BNe target => .BNe (targetUpdate target orignal replacement)
  | .BLt target => .BLt (targetUpdate target orignal replacement)
  | .BGe target => .BGe (targetUpdate target orignal replacement)
  | .BLe target => .BLe (targetUpdate target orignal replacement)
  | .BZero target => .BZero (targetUpdate target orignal replacement)
  | .BTrue target => .BTrue (targetUpdate target orignal replacement)
  | other => other

/-- The jump target of a branch op, `none` for every other op (the set of
branch variants is exactly the match arm of `replace_target`). -/
def CILOp.branch_target : CILOp → Option Nat
  | .GoTo target => some target
  | .BEq target => some target
  | .BNe target => some target
  | .BLt target => some target
  | .BGe target => some target
  | .BLe target => some target
  | .BZero target => some target
  | .BTrue target => some target
  | _ => none

/-- Whether the op is the no-op (a statement device for expressing the
spec's "the final Nops may be elided"). -/
def CILOp.isNop : CILOp → Bool
  | .Nop => true
  | _ => false

/-- Source `CILOp::call` - the call site of a `Call`, `CallVirt` or `NewObj`. -/
def CILOp.call : CILOp → Option CallSite
  | .Call site => some site
  | .CallVirt site => some site
  | .NewObj site => some site
  | _ => none

/-- Modelled from the spec: `crate::utilis::string_class()` (absent from
the sources) — the host runtime's string class, a reference type. -/
def string_class : DotnetTypeRef :=
  { asmName := some "System.Runtime", name := "System.String", valuetype := false }

/-- The `System.Exception` class reference built by `CILOp::throw_msg`
(`DotnetTypeRef::new(Some("System.Runtime"), "System.Exception")` with
`set_valuetype(false)`). -/
def exception_class : DotnetTypeRef :=
  { asmName := some "System.Runtime", name := "System.Exception", valuetype := false }

/-- Source `CILOp::throw_msg(msg)`: the three ops constructing and throwing a
`System.Exception` with message `msg`. -/
def CILOp.throw_msg (msg : String) : List CILOp :=
  [CILOp.LdStr msg,
   CILOp.NewObj (CallSite.new (some exception_class) ".ctor"
      { inputs := [Ty.DotnetType exception_class, Ty.DotnetType string_class],
        output := Ty.Void } false),
   CILOp.Throw]

/-- Source `CILOp::stack_diff`: the change in operand-stack depth caused by the
op; exhaustive over every variant. -/
def CILOp.stack_diff (op : CILOp) : Int :=
  match op with
  | .Nop => 0
  | .Comment _ => 0
  | .Label _ | .GoTo _ => 0
  | .BZero _ | .BTrue _ => -1
  | .BEq _ | .BNe _ | .BLt _ | .BGe _ | .BLe _ => -2
  | .LDArg _ | .LDArgA _ | .LDLoc _ | .LDLocA _ => 1
  | .LdcI32 _ | .LdcI64 _ | .LdcF32 _ | .LdcF64 _ | .LdStr _ | .LdNull
  | .SizeOf _ => 1
  | .ConvI8 _ | .ConvI16 _ | .ConvI32 _ | .ConvI64 _ | .ConvISize _
  | .ConvU8 _ | .ConvU16 _ | .ConvU32 _ | .ConvU64 _ | .ConvUSize _
  | .ConvF32 _ | .ConvF64 _ => 0
  | .LDIndI8 | .LDIndI16 | .LDIndI32 | .LDIndI64 | .LDIndISize
  | .LDIndF32 | .LDIndF64 | .LDIndRef => 0
  | .STIndI8 | .STIndI16 | .STIndI32 | .STIndI64 | .STIndISize
  | .STIndF32 | .STIndF64 => -2
  | .Pop => -1
  | .Dup => 1
  | .LDField _ | .LDFieldAdress _ => 0
  | .LocAlloc => 0
  | .NewObj site => 1 - (site.explicit_inputs.length : Int)
  | .LdObj _ => 0
  | .LDStaticField _ => 1
  | .STStaticField _ => -1
  | .STObj _ => -2
  | .STField _ => -2
  | .Add | .AddOvf | .AddOvfUn | .And | .Div | .Rem | .Shr | .Shl
  | .Sub | .SubOvf | .SubOvfUn | .Mul | .MulOvf | .Or | .XOr
  | .Eq | .Lt | .Gt => -1
  | .Not | .Neg => 0
  | .STLoc _ | .STArg _ => -1
  | .Call site | .CallVirt site =>
    if site.signature.output = Ty.Void then
      -(site.signature.inputs.length : Int)
    else
      1 - (site.signature.inputs.length : Int)
  | .Throw => -1
  | .Rethrow => -1
  | .Ret => -1
  | .CpBlk => -3
  | .NewTMPLocal _ | .FreeTMPLocal => 0
  | .LoadAddresOfTMPLocal | .LoadUnderTMPLocal _ | .LoadAdressUnderTMPLocal _
  | .LoadTMPLocal => 1
  | .SetTMPLocal => -1
  | .LoadGlobalAllocPtr _ => 1

/-- Source `Attribute`: method attributes (only `EntryPoint`). -/
inductive MethodAttribute where
  | EntryPoint
deriving DecidableEq

/-- Source `LocalDef`: an optional name and a type. -/
abbrev LocalDef := Option String × Ty

/-- Source `Method`: access modifier, static flag, signature, name, local table,
opcode sequence and attributes. -/
structure Method where
  access : AccessModifer
  is_static : Bool
  sig : FnSig
  name : String
  locals : List LocalDef
  ops : List CILOp
  attributes : List MethodAttribute

/-- Source `Method::new`: a fresh method with no ops and no attributes. -/
def Method.new (access : AccessModifer) (is_static : Bool) (sig : FnSig)
    (name : String) (locals : List LocalDef) : Method :=
  { access := access, is_static := is_static, sig := sig, name := name,
    locals := locals, ops := [], attributes := [] }

/-- Source `Method::set_ops`. -/
def Method.set_ops (m : Method) (ops : List CILOp) : Method :=
  { m with ops := ops }

/-- Source `Method::explicit_inputs`: the full input list for a static method,
all inputs but the first for an instance method; the source slices
`inputs()[1..]`, which panics (here `none`) when an instance method's
signature has no inputs. -/
def Method.explicit_inputs (m : Method) : Option (List Ty) :=
  if m.is_static then
    some m.sig.inputs
  else
    match m.sig.inputs with
    | [] => none
    | _ :: rest => some rest

/-- The loop body of `Method::allocate_temporaries`, recursing over the
op list while threading the local table and the tmp-stack (head = top;
the source pushes/pops/indexes at the `Vec`'s end).  `none` models the
source's panics: popping an empty tmp-stack (`expect`), reading the top
of an empty tmp-stack (`expect`), and out-of-range
`tmp_stack[(len - 1) - under]` indexing. -/
def allocTmpOps : List CILOp → List LocalDef → List Nat →
    Option (List LocalDef × List CILOp)
  | [], locals, _stack => some (locals, [])
  | op :: rest, locals, stack =>
    match op with
    | .NewTMPLocal tpe =>
      (allocTmpOps rest (locals ++ [(none, tpe)]) (locals.length :: stack)).map
        (fun r => (r.1, CILOp.Nop :: r.2))
    | .FreeTMPLocal =>
      match stack with
      | [] => none
      | _ :: tail =>
        (allocTmpOps rest locals tail).map (fun r => (r.1, CILOp.Nop :: r.2))
    | .LoadTMPLocal =>
      stack.head?.bind fun top =>
        (allocTmpOps rest locals stack).map (fun r => (r.1, CILOp.LDLoc top :: r.2))
    | .LoadUnderTMPLocal under =>
      (stack.get? under).bind fun idx =>
        (allocTmpOps rest locals stack).map (fun r => (r.1, CILOp.LDLoc idx :: r.2))
    | .LoadAdressUnderTMPLocal under =>
      (stack.get? under).bind fun idx =>
        (allocTmpOps rest locals stack).map (fun r => (r.1, CILOp.LDLocA idx :: r.2))
    | .LoadAddresOfTMPLocal =>
      stack.head?.bind fun top =>
        (allocTmpOps rest locals stack).map (fun r => (r.1, CILOp.LDLocA top :: r.2))
    | .SetTMPLocal =>
      stack.head?.bind fun top =>
        (allocTmpOps rest locals stack).map (fun r => (r.1, CILOp.STLoc top :: r.2))
    | other =>
      (allocTmpOps rest locals stack).map (fun r => (r.1, other :: r.2))

/-- Source `Method::allocate_temporaries`: rewrite the synthetic TMP ops of the
method, starting from an empty tmp-stack. -/
def Method.allocate_temporaries (m : Method) : Option Method :=
  (allocTmpOps m.ops m.locals []).map fun r =>
    { m with locals := r.1, ops := r.2 }

/-- Source `TypeDef`: access, name, nested inner types, fields, attached
methods, optional explicit offsets, generic-argument count, optional base
type.  An inductive rather than a structure because `inner_types` nests
`TypeDef` itself. -/
inductive TypeDef where
  | mk (access : AccessModifer) (name : String) (inner_types : List TypeDef)
      (fields : List (String × Ty)) (functions : List Method)
      (explicit_offsets : Option (List Nat)) (gargc : Nat)
      (extendsRef : Option DotnetTypeRef)

/-- Source `TypeDef::name`. -/
def TypeDef.name : TypeDef → String
  | .mk _ name _ _ _ _ _ _ => name

/-- Source `TypeDef::fields`. -/
def TypeDef.fields : TypeDef → List (String × Ty)
  | .mk _ _ _ fields _ _ _ _ => fields

/-- The methods attached to a `TypeDef` (`TypeDef::methods` iterates the
`functions` field). -/
def TypeDef.functions : TypeDef → List Method
  | .mk _ _ _ _ functions _ _ _ => functions

/-- Source `From<&TypeDef> for Type`: a name-only .NET type reference. -/
def TypeDef.toTy (def_ : TypeDef) : Ty :=
  Ty.DotnetType (DotnetTypeRef.new none def_.name)

/-- Source `From<&TypeDef> for DotnetTypeRef`: a name-only reference. -/
def TypeDef.toTyRef (def_ : TypeDef) : DotnetTypeRef :=
  DotnetTypeRef.new none def_.name

/-- Source `arr_name(element_count, element)` = `Arr{count}_{mangle(element)}`.
The mangling function lives in a source file that is absent, so it is
taken as a parameter. -/
def arr_name (mangle : Ty → String) (element_count : Nat) (element : Ty) : String :=
  "Arr" ++ toString element_count ++ "_" ++ mangle element

/-- Source `get_array_type(element_count, element)`: the array type definition
`Arr{N}_{mangle(T)}` with fields `f_0 … f_{N-1}` and the three accessor
methods `set_Item`, `get_Address`, `get_Item`. -/
def get_array_type (mangle : Ty → String) (element_count : Nat) (element : Ty) :
    TypeDef :=
  let name := arr_name mangle element_count element
  let fields := (List.range element_count).map
    (fun field => ("f_" ++ toString field, element))
  let def0 : TypeDef := .mk AccessModifer.Public name [] fields [] none 0 none
  -- set_Item(usize offset, G0 value)
  let set_usize := Method.new AccessModifer.Public false
    { inputs := [def0.toTy, Ty.USize, element], output := Ty.Void } "set_Item" []
  let set_usize := set_usize.set_ops
    [CILOp.LDArg 0,
     CILOp.LDFieldAdress (FieldDescriptor.boxed def0.toTyRef element "f_0"),
     CILOp.LDArg 1,
     CILOp.Add,
     CILOp.LDArg 2,
     CILOp.STObj element,
     CILOp.Ret]
  -- get_Address(usize offset)
  let get_adress_usize := Method.new AccessModifer.Public false
    { inputs := [def0.toTy, Ty.USize], output := Ty.Ptr element } "get_Address" []
  let get_adress_usize := get_adress_usize.set_ops
    [CILOp.LDArg 0,
     CILOp.LDFieldAdress (FieldDescriptor.boxed def0.toTyRef element "f_0"),
     CILOp.LDArg 1,
     CILOp.Add,
     CILOp.Ret]
  -- get_Item
  let get_item_usize := Method.new AccessModifer.Public false
    { inputs := [def0.toTy, Ty.USize], output := element } "get_Item" []
  let get_item_usize := get_item_usize.set_ops
    [CILOp.LDArg 0,
     CILOp.LDFieldAdress (FieldDescriptor.boxed def0.toTyRef element "f_0"),
     CILOp.LDArg 1,
     CILOp.Add,
     CILOp.LdObj element,
     CILOp.Ret]
  .mk AccessModifer.Public name [] fields
    [set_usize, get_adress_usize, get_item_usize] none 0 none

/-- The fixed list of reserved field names checked by
`escape_field_name`. -/
def reserved_field_names : List String :=
  ["value", "flags", "alignment", "init", "string", "nint", "nuint", "out",
   "rem", "add", "div", "error", "opt", "private", "public", "object",
   "class", "0"]

/-- The escape predicate of `escape_field_name` for a non-empty name:
the first character is neither a letter nor an underscore, or the name is
reserved.  `char::is_alphabetic` is rendered as `Char.isAlpha` (every
name the embedded code escapes is ASCII). -/
def escapeNeeded (name : String) : Bool :=
  match name.data with
  | [] => false
  | first :: _ =>
    decide ((¬ (first.isAlpha = true ∨ first = '_')) ∨ name ∈ reserved_field_names)

/-- Source `escape_field_name`: `"fld"` for an empty name; otherwise prefix the
name with `m_` when the escape predicate holds and return it unchanged
when it does not. -/
def escape_field_name (name : String) : String :=
  match name.data with
  | [] => "fld"
  | first :: _ =>
    if (¬ (first.isAlpha = true ∨ first = '_')) ∨ name ∈ reserved_field_names then
      "m_" ++ name
    else
      name

namespace Linker

/-- Modelled from the spec: the linker-era `Assembly` (its source file is
absent; only `src/bin/linker.rs` uses it here).  Autopatch reads and
extends only the method list, so only that component is modelled. -/
structure Assembly where
  methods : List Method

/-- Modelled from the spec: `Assembly::call_sites` — "every call site
referenced by any method's opcodes" (§4.7); each method contributes
`ops.iter().filter_map(|op| op.call())`. -/
def Assembly.call_sites (asm : Assembly) : List CallSite :=
  asm.methods.flatMap fun m => m.ops.filterMap CILOp.call

/-- Modelled from the spec: `Assembly::contains_fn_named` — whether a
"method of that exact name exists in the joined assembly" (§4.7). -/
def Assembly.contains_fn_named (asm : Assembly) (name : String) : Bool :=
  asm.methods.any fun m => m.name = name

/-- Modelled from the spec: `Assembly::add_method` appends a method. -/
def Assembly.add_method (asm : Assembly) (m : Method) : Assembly :=
  { asm with methods := asm.methods ++ [m] }

/-- The filter chain of `autopatch`: call sites that are static, have no
declaring class, and whose name resolves to no method of the assembly. -/
def Assembly.unresolved_sites (asm : Assembly) : List CallSite :=
  ((asm.call_sites.filter fun c => c.is_static && c.cls.isNone).filter
    fun c => !(asm.contains_fn_named c.name))

/-- Source `patch_missing_method(call_site)`: a private static method with the
site's signature and name whose body throws
`Tried to invoke missing method <name>`. -/
def patch_missing_method (call_site : CallSite) : Method :=
  ((Method.new AccessModifer.Private true call_site.signature call_site.name
    []).set_ops
      (CILOp.throw_msg ("Tried to invoke missing method " ++ call_site.name)))

/-- The deduplication of `autopatch`'s `patched` map: keep the first
occurrence of each call site (`if !patched.contains_key(call) { insert }`),
threading the set of already-seen sites. -/
def dedup_sites : List CallSite → List CallSite → List CallSite
  | [], _seen => []
  | c :: rest, seen =>
    if c ∈ seen then dedup_sites rest seen
    else c :: dedup_sites rest (c :: seen)

/-- Source `autopatch(asm)`: synthesise one `patch_missing_method` stub per
distinct unresolved static class-less call site and add them all to the
assembly. -/
def autopatch (asm : Assembly) : Assembly :=
  { asm with
    methods := asm.methods ++
      (dedup_sites asm.unresolved_sites []).map patch_missing_method }

end Linker

namespace Legacy

/-- The legacy value-type model `VariableType` of the early assembly
module; the variant list is read off the exhaustive match of
`Assembly::sizeof_type` (the defining file is absent).  Payloads that
`sizeof_type` never inspects (`Generic`) are carried as an index. -/
inductive VariableType where
  | Void
  | Bool
  | I8 | I16 | I32 | I64 | I128 | ISize
  | U8 | U16 | U32 | U64 | U128 | USize
  | F32 | F64
  | Ref (pointed : VariableType)
  | RefMut (pointed : VariableType)
  | Pointer (pointed : VariableType)
  | Slice (element : VariableType)
  | Array (element : VariableType) (length : Nat)
  | Tuple (elements : List VariableType)
  | Struct (name : String)
  | Enum (name : String)
  | StrSlice
  | Generic (index : Nat)

/-- Source `CLRType`: a named legacy type definition - a struct with ordered
fields, a fixed array, or a slice. -/
inductive CLRType where
  | Struct (fields : List (String × VariableType))
  | Array (element : VariableType) (length : Nat)
  | Slice (element : VariableType)

/-- Modelled from the spec: the legacy `CLRMethod` (its source file is
absent).  `Assembly::link` copies methods without inspecting them, so
only an identity is modelled ("a method is its name plus signature plus
ordered opcode list" - collapsed to an opaque name here). -/
structure CLRMethod where
  name : String

/-- The legacy `Assembly`: methods, name, a name-keyed type table
(`HashMap` rendered as an association list), and the pointer width
`size_t`. -/
structure Assembly where
  methods : List CLRMethod
  name : String
  types : List (String × CLRType)
  size_t : Nat

/-- Source `HashMap::insert`: replace the value under an existing key, append a
fresh binding otherwise. -/
def hmInsert (m : List (String × CLRType)) (key : String) (val : CLRType) :
    List (String × CLRType) :=
  if m.any (fun p => p.1 = key) then
    m.map fun p => if p.1 = key then (key, val) else p
  else
    m ++ [(key, val)]

/-- Source `HashMap::extend`: insert every binding of `other`, overwriting
existing keys. -/
def hmExtend (m other : List (String × CLRType)) : List (String × CLRType) :=
  other.foldl (fun acc p => hmInsert acc p.1 p.2) m

/-- Source `Assembly::link`: `self.methods.extend_from_slice(&other.methods);
self.types.extend(other.types);` - methods are concatenated and the type
table of `other` is merged in, overwriting same-name entries. -/
def Assembly.link (self other : Assembly) : Assembly :=
  { self with
    methods := self.methods ++ other.methods,
    types := hmExtend self.types other.types }

mutual

/-- Source `Assembly::sizeof_type`.  The `Struct` arm re-enters the function
through the type table (`self.types[struct_name]`), which is not
structural, so a fuel parameter bounds that call depth (consumed only
there); a missing table entry (a `HashMap` index panic in the source) and
fuel exhaustion are rendered as errors.  All other arms mirror the source
match arm for arm, `panic!`/`todo!` becoming `Except.error` with the
source's message. -/
def Assembly.sizeof_type (asm : Assembly) : Nat → VariableType → Except String Nat
  | _, .Void => .ok 0
  | _, .I8 | _, .U8 | _, .Bool => .ok 1
  | _, .I16 | _, .U16 => .ok 2
  | _, .I32 | _, .U32 | _, .F32 => .ok 4
  | _, .I64 | _, .U64 | _, .F64 => .ok 8
  | _, .I128 | _, .U128 => .ok 16
  | _, .ISize | _, .USize => .ok asm.size_t
  | _, .Ref _ | _, .RefMut _ | _, .Pointer _ => .ok asm.size_t
  | _, .Slice _ => .ok (asm.size_t + asm.size_t)
  | fuel, .Array element length =>
    (asm.sizeof_type fuel element).map fun s => s * length
  | fuel, .Tuple elements => asm.sizeof_list fuel elements
  | 0, .Struct _ => .error "Recursion limit reached while computing sizeof type!"
  | fuel + 1, .Struct struct_name =>
    match asm.types.lookup struct_name with
    | none => .error "No type entry for the struct!"
    | some (.Struct fields) => asm.sizeof_list fuel (fields.map Prod.snd)
    | some (.Array element length) =>
      (asm.sizeof_type fuel element).map fun s => s * length
    | some (.Slice _) => .error "Can't compute sizeof silice at compile time!"
  | _, .Enum _ => .error "Can't yet compute sizeof enum at compile time!"
  | _, .StrSlice => .error "Can't compute sizeof string silice at compile time!"
  | _, .Generic _ => .error "Can't calcuate the size of a geneic!"
termination_by fuel t => (fuel, sizeOf t)

/-- The element-wise summation
`elements.iter().map(|e| self.sizeof_type(e)).sum()` (an error in any
element surfaces, as the source's panic would). -/
def Assembly.sizeof_list (asm : Assembly) : Nat → List VariableType → Except String Nat
  | _, [] => .ok 0
  | fuel, t :: rest => do
    let s ← asm.sizeof_type fuel t
    let r ← asm.sizeof_list fuel rest
    return (s + r)
termination_by fuel ts => (fuel, sizeOf ts)

end

end Legacy

/-- C2: `CILOp.stack_diff` is total over every opcode variant (it is a
total function on `CILOp`) and returns the stated values: conditional
branches and stores −1/−2; loads and constant pushes +1; binary
arithmetic and comparisons −1, unary 0; calls
`(1 if output ≠ void else 0) − |inputs|`; `NewObj`
`1 − |explicit inputs|`; `CpBlk` −3; synthetic new/free 0, loads +1,
store −1. -/
theorem stack_diff_spec :
    (∀ t : Nat, (CILOp.BZero t).stack_diff = -1 ∧ (CILOp.BTrue t).stack_diff = -1 ∧
      (CILOp.BEq t).stack_diff = -2 ∧ (CILOp.BNe t).stack_diff = -2 ∧
      (CILOp.BLt t).stack_diff = -2 ∧ (CILOp.BGe t).stack_diff = -2 ∧
      (CILOp.BLe t).stack_diff = -2) ∧
    (∀ n : Nat, (CILOp.STLoc n).stack_diff = -1 ∧ (CILOp.STArg n).stack_diff = -1) ∧
    (∀ fd, (CILOp.STField fd).stack_diff = -2) ∧
    (∀ fd, (CILOp.STStaticField fd).stack_diff = -1) ∧
    (∀ tpe, (CILOp.STObj tpe).stack_diff = -2) ∧
    (CILOp.STIndI8.stack_diff = -2 ∧ CILOp.STIndI16.stack_diff = -2 ∧
      CILOp.STIndI32.stack_diff = -2 ∧ CILOp.STIndI64.stack_diff = -2 ∧
      CILOp.STIndISize.stack_diff = -2 ∧ CILOp.STIndF32.stack_diff = -2 ∧
      CILOp.STIndF64.stack_diff = -2) ∧
    (∀ n : Nat, (CILOp.LDLoc n).stack_diff = 1 ∧ (CILOp.LDLocA n).stack_diff = 1 ∧
      (CILOp.LDArg n).stack_diff = 1 ∧ (CILOp.LDArgA n).stack_diff = 1) ∧
    (∀ v : Int, (CILOp.LdcI32 v).stack_diff = 1 ∧ (CILOp.LdcI64 v).stack_diff = 1) ∧
    (∀ bits : Nat, (CILOp.LdcF32 bits).stack_diff = 1 ∧
      (CILOp.LdcF64 bits).stack_diff = 1) ∧
    (∀ s : String, (CILOp.LdStr s).stack_diff = 1) ∧
    CILOp.LdNull.stack_diff = 1 ∧
    (CILOp.Add.stack_diff = -1 ∧ CILOp.AddOvf.stack_diff = -1 ∧
      CILOp.AddOvfUn.stack_diff = -1 ∧ CILOp.And.stack_diff = -1 ∧
      CILOp.Div.stack_diff = -1 ∧ CILOp.Rem.stack_diff = -1 ∧
      CILOp.Shr.stack_diff = -1 ∧ CILOp.Shl.stack_diff = -1 ∧
      CILOp.Sub.stack_diff = -1 ∧ CILOp.SubOvf.stack_diff = -1 ∧
      CILOp.SubOvfUn.stack_diff = -1 ∧ CILOp.Mul.stack_diff = -1 ∧
      CILOp.MulOvf.stack_diff = -1 ∧ CILOp.Or.stack_diff = -1 ∧
      CILOp.XOr.stack_diff = -1) ∧
    (CILOp.Eq.stack_diff = -1 ∧ CILOp.Lt.stack_diff = -1 ∧
      CILOp.Gt.stack_diff = -1) ∧
    (CILOp.Not.stack_diff = 0 ∧ CILOp.Neg.stack_diff = 0) ∧
    (∀ site : CallSite,
      (CILOp.Call site).stack_diff =
        (if site.signature.output = Ty.Void then 0 else 1) -
          (site.signature.inputs.length : Int) ∧
      (CILOp.CallVirt site).stack_diff =
        (if site.signature.output = Ty.Void then 0 else 1) -
          (site.signature.inputs.length : Int)) ∧
    (∀ site : CallSite,
      (CILOp.NewObj site).stack_diff = 1 - (site.explicit_inputs.length : Int)) ∧
    CILOp.CpBlk.stack_diff = -3 ∧
    (∀ tpe, (CILOp.NewTMPLocal tpe).stack_diff = 0) ∧
    CILOp.FreeTMPLocal.stack_diff = 0 ∧
    (CILOp.LoadTMPLocal.stack_diff = 1 ∧ CILOp.LoadAddresOfTMPLocal.stack_diff = 1 ∧
      (∀ n : Nat, (CILOp.LoadUnderTMPLocal n).stack_diff = 1 ∧
        (CILOp.LoadAdressUnderTMPLocal n).stack_diff = 1)) ∧
    CILOp.SetTMPLocal.stack_diff = -1 := by
  refine ⟨fun t => ⟨rfl, rfl, rfl, rfl, rfl, rfl, rfl⟩,
    fun n => ⟨rfl, rfl⟩, fun fd => rfl, fun fd => rfl, fun tpe => rfl,
    ⟨rfl, rfl, rfl, rfl, rfl, rfl, rfl⟩,
    fun n => ⟨rfl, rfl, rfl, rfl⟩, fun v => ⟨rfl, rfl⟩, fun bits => ⟨rfl, rfl⟩,
    fun s => rfl, rfl,
    ⟨rfl, rfl, rfl, rfl, rfl, rfl, rfl, rfl, rfl, rfl, rfl, rfl, rfl, rfl, rfl⟩,
    ⟨rfl, rfl, rfl⟩, ⟨rfl, rfl⟩, fun site => ?_,
    fun site => rfl, rfl, fun tpe => rfl, rfl,
    ⟨rfl, rfl, fun n => ⟨rfl, rfl⟩⟩, rfl⟩
  constructor <;>
    · by_cases h : site.signature.output = Ty.Void <;>
        simp [CILOp.stack_diff, h]

/-- C10: `Method.explicit_inputs` returns the full input list for a
static method and all inputs but the first for an instance method whose
signature has at least one input, and fails (the source panics on the
`inputs()[1..]` slice) for an instance method with an empty input
list. -/
theorem explicit_inputs_spec :
    ∀ m : Method,
      (m.is_static = true → m.explicit_inputs = some m.sig.inputs) ∧
      (m.is_static = false → ∀ receiver rest, m.sig.inputs = receiver :: rest →
        m.explicit_inputs = some rest) ∧
      (m.is_static = false → m.sig.inputs = [] → m.explicit_inputs = none) := by
  intro m
  refine ⟨fun h => ?_, fun h receiver rest hi => ?_, fun h hi => ?_⟩
  · simp [Method.explicit_inputs, h]
  · simp [Method.explicit_inputs, h, hi]
  · simp [Method.explicit_inputs, h, hi]

/-- Witness for C10 at a concrete static method. -/
theorem explicit_inputs_spec_witness :
    (Method.new AccessModifer.Public true ⟨[Ty.I32], Ty.Void⟩ "f" []).is_static = true ∧
    (Method.new AccessModifer.Public true ⟨[Ty.I32], Ty.Void⟩ "f" []).explicit_inputs =
      some [Ty.I32] :=
  ⟨rfl, (explicit_inputs_spec
    (Method.new AccessModifer.Public true ⟨[Ty.I32], Ty.Void⟩ "f" [])).1 rfl⟩

/-- C1: the temporary-local allocation pass walks the ops in order with a
LIFO stack of local indices: `NewTMPLocal(T)` appends an anonymous local
of type T, pushes its index and becomes a no-op; `FreeTMPLocal` pops and
becomes a no-op; `LoadTMPLocal`/`LoadAddresOfTMPLocal`/`SetTMPLocal`
become `LDLoc`/`LDLocA`/`STLoc` of the top index;
`LoadUnderTMPLocal(n)`/`LoadAdressUnderTMPLocal(n)` become
`LDLoc`/`LDLocA` of the index `n` entries below the top.  On the S1
example the pass yields locals `[(_, U32)]` and ops
`[Nop, LdcI32 8, STLoc 0, LdcI32 7, LDLoc 0, Nop, Ret]`, which agrees
with the claimed `[Nop, LdcI32 8, STLoc 0, LdcI32 7, LDLoc 0, Nop, Nop,
Ret]` once (final) no-ops are elided. -/
theorem allocate_temporaries_spec :
    (∀ rest locals stack (tpe : Ty),
      allocTmpOps (CILOp.NewTMPLocal tpe :: rest) locals stack =
        (allocTmpOps rest (locals ++ [(none, tpe)]) (locals.length :: stack)).map
          (fun r => (r.1, CILOp.Nop :: r.2))) ∧
    (∀ rest locals idx stack,
      allocTmpOps (CILOp.FreeTMPLocal :: rest) locals (idx :: stack) =
        (allocTmpOps rest locals stack).map (fun r => (r.1, CILOp.Nop :: r.2))) ∧
    (∀ rest locals stack,
      allocTmpOps (CILOp.LoadTMPLocal :: rest) locals stack =
        stack.head?.bind fun top => (allocTmpOps rest locals stack).map
          (fun r => (r.1, CILOp.LDLoc top :: r.2))) ∧
    (∀ rest locals stack,
      allocTmpOps (CILOp.LoadAddresOfTMPLocal :: rest) locals stack =
        stack.head?.bind fun top => (allocTmpOps rest locals stack).map
          (fun r => (r.1, CILOp.LDLocA top :: r.2))) ∧
    (∀ rest locals stack,
      allocTmpOps (CILOp.SetTMPLocal :: rest) locals stack =
        stack.head?.bind fun top => (allocTmpOps rest locals stack).map
          (fun r => (r.1, CILOp.STLoc top :: r.2))) ∧
    (∀ rest locals stack (under : Nat),
      allocTmpOps (CILOp.LoadUnderTMPLocal under :: rest) locals stack =
        (stack.get? under).bind fun idx => (allocTmpOps rest locals stack).map
          (fun r => (r.1, CILOp.LDLoc idx :: r.2))) ∧
    (∀ rest locals stack (under : Nat),
      allocTmpOps (CILOp.LoadAdressUnderTMPLocal under :: rest) locals stack =
        (stack.get? under).bind fun idx => (allocTmpOps rest locals stack).map
          (fun r => (r.1, CILOp.LDLocA idx :: r.2))) ∧
    ((Method.new AccessModifer.Public true ⟨[], Ty.U32⟩ "meth" []).set_ops
        [CILOp.NewTMPLocal Ty.U32, CILOp.LdcI32 8, CILOp.SetTMPLocal,
         CILOp.LdcI32 7, CILOp.LoadTMPLocal, CILOp.FreeTMPLocal,
         CILOp.Ret]).allocate_temporaries =
      some ((Method.new AccessModifer.Public true ⟨[], Ty.U32⟩ "meth"
        [(none, Ty.U32)]).set_ops
          [CILOp.Nop, CILOp.LdcI32 8, CILOp.STLoc 0, CILOp.LdcI32 7,
           CILOp.LDLoc 0, CILOp.Nop, CILOp.Ret]) ∧
    ([CILOp.Nop, CILOp.LdcI32 8, CILOp.STLoc 0, CILOp.LdcI32 7, CILOp.LDLoc 0,
        CILOp.Nop, CILOp.Ret].filter (fun op => ! op.isNop) =
      [CILOp.Nop, CILOp.LdcI32 8, CILOp.STLoc 0, CILOp.LdcI32 7, CILOp.LDLoc 0,
        CILOp.Nop, CILOp.Nop, CILOp.Ret].filter (fun op => ! op.isNop)) :=
  ⟨fun _ _ _ _ => rfl, fun _ _ _ _ => rfl, fun _ _ _ => rfl, fun _ _ _ => rfl,
   fun _ _ _ => rfl, fun _ _ _ _ => rfl, fun _ _ _ _ => rfl, rfl, rfl⟩

/-- C7 (amended): the temporary-local allocation pass fails on
`FreeTMPLocal` with an empty tmp-stack and on any tmp-local use opcode
with no active temporary; it performs, however, no balance check at the
end of the opcode sequence - reaching the end succeeds whatever is left
on the tmp-stack. -/
theorem allocate_temporaries_failure_spec :
    (∀ rest locals, allocTmpOps (CILOp.FreeTMPLocal :: rest) locals [] = none) ∧
    (∀ rest locals, allocTmpOps (CILOp.LoadTMPLocal :: rest) locals [] = none) ∧
    (∀ rest locals,
      allocTmpOps (CILOp.LoadAddresOfTMPLocal :: rest) locals [] = none) ∧
    (∀ rest locals, allocTmpOps (CILOp.SetTMPLocal :: rest) locals [] = none) ∧
    (∀ rest locals (under : Nat),
      allocTmpOps (CILOp.LoadUnderTMPLocal under :: rest) locals [] = none) ∧
    (∀ rest locals (under : Nat),
      allocTmpOps (CILOp.LoadAdressUnderTMPLocal under :: rest) locals [] = none) ∧
    (∀ locals stack, allocTmpOps [] locals stack = some (locals, [])) := by
  refine ⟨fun _ _ => rfl, fun _ _ => rfl, fun _ _ => rfl, fun _ _ => rfl,
    fun rest locals under => ?_, fun rest locals under => ?_, fun _ _ => rfl⟩ <;>
    cases under <;> rfl

/-- C7 counterexample: a method with more `NewTMPLocal` than
`FreeTMPLocal` is not rejected - the pass succeeds, leaving the extra
local allocated. -/
theorem allocate_temporaries_unbalanced_accepted :
    ((Method.new AccessModifer.Public true ⟨[], Ty.Void⟩ "unbalanced" []).set_ops
      [CILOp.NewTMPLocal Ty.U32, CILOp.Ret]).allocate_temporaries =
      some ((Method.new AccessModifer.Public true ⟨[], Ty.Void⟩ "unbalanced"
        [(none, Ty.U32)]).set_ops [CILOp.Nop, CILOp.Ret]) ∧
    ((Method.new AccessModifer.Public true ⟨[], Ty.Void⟩ "unbalanced" []).set_ops
      [CILOp.NewTMPLocal Ty.U32, CILOp.Ret]).allocate_temporaries ≠ none :=
  ⟨rfl, Option.some_ne_none _⟩

/-- C8 (amended): `replace_target` rewrites the jump target to the
replacement exactly when the op is a branch whose target equals the
original, and is a no-op otherwise; the composition
`replace_target x y` then `replace_target y x` restores the original op
provided the branch's target equals `x` or differs from `y` (it moves a
target already equal to `y` to `x` otherwise). -/
theorem replace_target_spec :
    (∀ target orignal replacement : Nat,
      (CILOp.GoTo target).replace_target orignal replacement =
        CILOp.GoTo (if orignal = target then replacement else target) ∧
      (CILOp.BEq target).replace_target orignal replacement =
        CILOp.BEq (if orignal = target then replacement else target) ∧
      (CILOp.BNe target).replace_target orignal replacement =
        CILOp.BNe (if orignal = target then replacement else target) ∧
      (CILOp.BLt target).replace_target orignal replacement =
        CILOp.BLt (if orignal = target then replacement else target) ∧
      (CILOp.BGe target).replace_target orignal replacement =
        CILOp.BGe (if orignal = target then replacement else target) ∧
      (CILOp.BLe target).replace_target orignal replacement =
        CILOp.BLe (if orignal = target then replacement else target) ∧
      (CILOp.BZero target).replace_target orignal replacement =
        CILOp.BZero (if orignal = target then replacement else target) ∧
      (CILOp.BTrue target).replace_target orignal replacement =
        CILOp.BTrue (if orignal = target then replacement else target)) ∧
    (∀ (op : CILOp) (orignal replacement : Nat), op.branch_target = none →
      op.replace_target orignal replacement = op) ∧
    (∀ (op : CILOp) (x y : Nat),
      (∀ target, op.branch_target = some target → target = x ∨ target ≠ y) →
      (op.replace_target x y).replace_target y x = op) := by
  have roundtrip : ∀ t x y : Nat, t = x ∨ t ≠ y →
      targetUpdate (targetUpdate t x y) y x = t := by
    intro t x y h
    unfold targetUpdate
    split_ifs <;> omega
  refine ⟨fun _ _ _ => ⟨rfl, rfl, rfl, rfl, rfl, rfl, rfl, rfl⟩, ?_, ?_⟩
  · intro op orignal replacement h
    cases op <;> first | rfl | exact Option.noConfusion h
  · intro op x y h
    cases op <;> try rfl
    case GoTo t => exact congrArg CILOp.GoTo (roundtrip t x y (h t rfl))
    case BEq t => exact congrArg CILOp.BEq (roundtrip t x y (h t rfl))
    case BNe t => exact congrArg CILOp.BNe (roundtrip t x y (h t rfl))
    case BLt t => exact congrArg CILOp.BLt (roundtrip t x y (h t rfl))
    case BGe t => exact congrArg CILOp.BGe (roundtrip t x y (h t rfl))
    case BLe t => exact congrArg CILOp.BLe (roundtrip t x y (h t rfl))
    case BZero t => exact congrArg CILOp.BZero (roundtrip t x y (h t rfl))
    case BTrue t => exact congrArg CILOp.BTrue (roundtrip t x y (h t rfl))

/-- Witness for C8 (amended) at `GoTo 5`, `x = 5`, `y = 7`. -/
theorem replace_target_spec_witness :
    (∀ target, (CILOp.GoTo 5).branch_target = some target →
      target = 5 ∨ target ≠ 7) ∧
    ((CILOp.GoTo 5).replace_target 5 7).replace_target 7 5 = CILOp.GoTo 5 :=
  ⟨fun target ht => by simp [CILOp.branch_target] at ht; omega,
   replace_target_spec.2.2 (CILOp.GoTo 5) 5 7
     (fun target ht => by simp [CILOp.branch_target] at ht; omega)⟩

/-- C8 counterexample: on `GoTo 1` with `x = 0`, `y = 1` the composition
does not restore the original op - the target, already equal to `y`,
is moved to `x`. -/
theorem replace_target_roundtrip_cex :
    ((CILOp.GoTo 1).replace_target 0 1).replace_target 1 0 = CILOp.GoTo 0 ∧
    CILOp.GoTo 0 ≠ CILOp.GoTo 1 :=
  ⟨rfl, by simp⟩

/-- Unfolding of `escape_field_name` at a non-empty name. -/
theorem escape_field_name_cons (first : Char) (rest : List Char) :
    escape_field_name ⟨first :: rest⟩ =
      if (¬ (first.isAlpha = true ∨ first = '_')) ∨
          (⟨first :: rest⟩ : String) ∈ reserved_field_names then
        "m_" ++ (⟨first :: rest⟩ : String)
      else
        (⟨first :: rest⟩ : String) := rfl

/-- No reserved field name starts with the character `m`. -/
theorem reserved_head_ne_m (s : String) (h : s ∈ reserved_field_names) :
    s.data.head? ≠ some 'm' := by
  fin_cases h <;> decide

/-- An `m_`-prefixed name is never reserved. -/
theorem m_prefixed_not_reserved (name : String) :
    ("m_" ++ name) ∉ reserved_field_names := fun h =>
  reserved_head_ne_m _ h rfl

/-- C9: `escape_field_name` prefixes a non-empty name with `m_` exactly
when the escape predicate holds (first character neither letter nor
underscore, or a reserved word) and returns it unchanged otherwise; it is
idempotent on every name, its result is never reserved, and the four
concrete examples hold. -/
theorem escape_field_name_spec :
    (∀ name : String, name.data ≠ [] →
      escape_field_name name =
        (if escapeNeeded name then "m_" ++ name else name)) ∧
    (∀ name : String,
      escape_field_name (escape_field_name name) = escape_field_name name) ∧
    (∀ name : String, escape_field_name name ∉ reserved_field_names) ∧
    escape_field_name "0" = "m_0" ∧
    escape_field_name "value" = "m_value" ∧
    escape_field_name "_count" = "_count" ∧
    escape_field_name "foo" = "foo" := by
  have mp_fixed : ∀ name : String,
      escape_field_name ("m_" ++ name) = "m_" ++ name := by
    intro ⟨data⟩
    show escape_field_name ⟨'m' :: '_' :: data⟩ = _
    rw [escape_field_name_cons]
    rw [if_neg]
    · rfl
    · rintro (habs | habs)
      · exact habs (Or.inl (by decide))
      · exact reserved_head_ne_m _ habs rfl
  refine ⟨?_, ?_, ?_, rfl, rfl, rfl, rfl⟩
  · intro name hne
    obtain ⟨data⟩ := name
    cases data with
    | nil => exact absurd rfl hne
    | cons first rest =>
      rw [escape_field_name_cons]
      by_cases h : (¬ (first.isAlpha = true ∨ first = '_')) ∨
          (⟨first :: rest⟩ : String) ∈ reserved_field_names
      · rw [if_pos h, if_pos]
        show (escapeNeeded ⟨first :: rest⟩) = true
        simpa [escapeNeeded] using h
      · rw [if_neg h, if_neg]
        show ¬ (escapeNeeded ⟨first :: rest⟩) = true
        simpa [escapeNeeded] using h
  · intro name
    obtain ⟨data⟩ := name
    cases data with
    | nil => rfl
    | cons first rest =>
      rw [escape_field_name_cons]
      by_cases h : (¬ (first.isAlpha = true ∨ first = '_')) ∨
          (⟨first :: rest⟩ : String) ∈ reserved_field_names
      · rw [if_pos h]
        exact mp_fixed _
      · rw [if_neg h, escape_field_name_cons, if_neg h]
  · intro name
    obtain ⟨data⟩ := name
    cases data with
    | nil => decide
    | cons first rest =>
      rw [escape_field_name_cons]
      by_cases h : (¬ (first.isAlpha = true ∨ first = '_')) ∨
          (⟨first :: rest⟩ : String) ∈ reserved_field_names
      · rw [if_pos h]
        exact m_prefixed_not_reserved _
      · rw [if_neg h]
        exact fun hmem => h (Or.inr hmem)

/-- Witness for C9 at the non-empty name `"foo"`. -/
theorem escape_field_name_spec_witness :
    ("foo" : String).data ≠ [] ∧
    escape_field_name "foo" = (if escapeNeeded "foo" then "m_" ++ "foo" else "foo") :=
  ⟨by decide, escape_field_name_spec.1 "foo" (by decide)⟩

/-- C3 evidence: `Assembly::link` neither deduplicates methods nor
detects type conflicts - linking two assemblies that both define a type
named `Foo` with different field lists succeeds, silently keeping the
second definition, and the duplicated method appears twice. -/
theorem link_keeps_duplicates_and_overwrites :
    (Legacy.Assembly.link
        ⟨[⟨"m"⟩], "a", [("Foo", Legacy.CLRType.Struct [])], 8⟩
        ⟨[⟨"m"⟩], "b",
          [("Foo", Legacy.CLRType.Struct [("x", Legacy.VariableType.I32)])],
          8⟩).methods = [⟨"m"⟩, ⟨"m"⟩] ∧
    (Legacy.Assembly.link
        ⟨[⟨"m"⟩], "a", [("Foo", Legacy.CLRType.Struct [])], 8⟩
        ⟨[⟨"m"⟩], "b",
          [("Foo", Legacy.CLRType.Struct [("x", Legacy.VariableType.I32)])],
          8⟩).types =
      [("Foo", Legacy.CLRType.Struct [("x", Legacy.VariableType.I32)])] ∧
    (Legacy.Assembly.link
        ⟨[⟨"m"⟩], "a", [("Foo", Legacy.CLRType.Struct [])], 8⟩
        ⟨[⟨"m"⟩], "b",
          [("Foo", Legacy.CLRType.Struct [("x", Legacy.VariableType.I32)])],
          8⟩).name = "a" := by
  refine ⟨rfl, ?_, rfl⟩
  show Legacy.hmExtend _ _ = _
  simp [Legacy.hmExtend, Legacy.hmInsert]

/-- C5: size computation - a fixed array of N elements of T is N times
the size of T, a tuple is the sum of its element sizes with no padding,
pointers and references have the pointer width and slices twice that;
with pointer width 8, `Tuple[I32, U8, Ptr(Void)]` has size 13 and
`Slice(I32)` has size 16; string slices, generic parameters and named
enums raise a definite error. -/
theorem sizeof_type_spec :
    (∀ (asm : Legacy.Assembly) (fuel : Nat) (element : Legacy.VariableType)
        (length : Nat),
      asm.sizeof_type fuel (.Array element length) =
        (asm.sizeof_type fuel element).map (fun s => s * length)) ∧
    (∀ (asm : Legacy.Assembly) (fuel : Nat) (elements : List Legacy.VariableType)
        (sizes : List Nat),
      List.Forall₂ (fun t s => asm.sizeof_type fuel t = .ok s) elements sizes →
      asm.sizeof_type fuel (.Tuple elements) = .ok sizes.sum) ∧
    (∀ (asm : Legacy.Assembly) (fuel : Nat) (t : Legacy.VariableType),
      asm.sizeof_type fuel (.Pointer t) = .ok asm.size_t ∧
      asm.sizeof_type fuel (.Ref t) = .ok asm.size_t ∧
      asm.sizeof_type fuel (.RefMut t) = .ok asm.size_t) ∧
    (∀ (asm : Legacy.Assembly) (fuel : Nat) (t : Legacy.VariableType),
      asm.sizeof_type fuel (.Slice t) = .ok (2 * asm.size_t)) ∧
    ((⟨[], "a", [], 8⟩ : Legacy.Assembly).sizeof_type 1
      (.Tuple [.I32, .U8, .Pointer .Void]) = .ok 13) ∧
    ((⟨[], "a", [], 8⟩ : Legacy.Assembly).sizeof_type 1 (.Slice .I32) = .ok 16) ∧
    (∀ (asm : Legacy.Assembly) (fuel : Nat),
      asm.sizeof_type fuel .StrSlice =
        .error "Can't compute sizeof string silice at compile time!") ∧
    (∀ (asm : Legacy.Assembly) (fuel : Nat) (index : Nat),
      asm.sizeof_type fuel (.Generic index) =
        .error "Can't calcuate the size of a geneic!") ∧
    (∀ (asm : Legacy.Assembly) (fuel : Nat) (name : String),
      asm.sizeof_type fuel (.Enum name) =
        .error "Can't yet compute sizeof enum at compile time!") := by
  have list_sum : ∀ (asm : Legacy.Assembly) (fuel : Nat)
      {elements : List Legacy.VariableType} {sizes : List Nat},
      List.Forall₂ (fun t s => asm.sizeof_type fuel t = .ok s) elements sizes →
      asm.sizeof_list fuel elements = .ok sizes.sum := by
    intro asm fuel elements sizes h
    induction h with
    | nil => simp [Legacy.Assembly.sizeof_list]
    | cons h1 _ ih =>
      simp only [Legacy.Assembly.sizeof_list, h1, ih, List.sum_cons]
      rfl
  refine ⟨?_, ?_, ?_, ?_, ?_, ?_, ?_, ?_, ?_⟩
  · intro asm fuel element length
    simp [Legacy.Assembly.sizeof_type]
  · intro asm fuel elements sizes h
    rw [show asm.sizeof_type fuel (.Tuple elements) =
      asm.sizeof_list fuel elements from by simp [Legacy.Assembly.sizeof_type]]
    exact list_sum asm fuel h
  · intro asm fuel t
    refine ⟨?_, ?_, ?_⟩ <;> simp [Legacy.Assembly.sizeof_type]
  · intro asm fuel t
    simp [Legacy.Assembly.sizeof_type, two_mul]
  · have h : List.Forall₂
        (fun t s => (⟨[], "a", [], 8⟩ : Legacy.Assembly).sizeof_type 1 t = .ok s)
        [Legacy.VariableType.I32, .U8, .Pointer .Void] [4, 1, 8] := by
      refine .cons ?_ (.cons ?_ (.cons ?_ .nil)) <;>
        simp [Legacy.Assembly.sizeof_type]
    rw [show ((⟨[], "a", [], 8⟩ : Legacy.Assembly).sizeof_type 1
        (.Tuple [.I32, .U8, .Pointer .Void])) =
      (⟨[], "a", [], 8⟩ : Legacy.Assembly).sizeof_list 1
        [Legacy.VariableType.I32, .U8, .Pointer .Void] from by
          simp [Legacy.Assembly.sizeof_type]]
    rw [list_sum _ _ h]
    rfl
  · simp [Legacy.Assembly.sizeof_type]
  · intro asm fuel
    simp [Legacy.Assembly.sizeof_type]
  · intro asm fuel index
    simp [Legacy.Assembly.sizeof_type]
  · intro asm fuel name
    simp [Legacy.Assembly.sizeof_type]

/-- Witness for C5's tuple summation at the S5 tuple. -/
theorem sizeof_type_spec_witness :
    List.Forall₂
      (fun t s => (⟨[], "a", [], 8⟩ : Legacy.Assembly).sizeof_type 1 t = .ok s)
      [Legacy.VariableType.I32, .U8, .Pointer .Void] [4, 1, 8] ∧
    (⟨[], "a", [], 8⟩ : Legacy.Assembly).sizeof_type 1
      (.Tuple [.I32, .U8, .Pointer .Void]) = .ok ([4, 1, 8] : List Nat).sum := by
  have h : List.Forall₂
      (fun t s => (⟨[], "a", [], 8⟩ : Legacy.Assembly).sizeof_type 1 t = .ok s)
      [Legacy.VariableType.I32, .U8, .Pointer .Void] [4, 1, 8] := by
    refine .cons ?_ (.cons ?_ (.cons ?_ .nil)) <;>
      simp [Legacy.Assembly.sizeof_type]
  exact ⟨h, sizeof_type_spec.2.1 _ 1 _ _ h⟩

/-- C6: for every element count N and element type T (and any mangling
function, which lives outside the sources), `get_array_type` yields a def
named `Arr{N}_{mangle(T)}` with exactly N fields `f_0 … f_{N-1}` of type
T and exactly the three methods `set_Item(self, usize, T) → Void`,
`get_Address(self, usize) → *T` and `get_Item(self, usize) → T`, each
loading the address of field `f_0`, adding the index argument, and
storing / returning the address / loading. -/
theorem get_array_type_spec :
    ∀ (mangle : Ty → String) (element_count : Nat) (element : Ty),
      (get_array_type mangle element_count element).name =
        arr_name mangle element_count element ∧
      (get_array_type mangle element_count element).fields =
        (List.range element_count).map (fun i => ("f_" ++ toString i, element)) ∧
      (get_array_type mangle element_count element).functions =
        [{ access := AccessModifer.Public, is_static := false,
           sig := { inputs := [Ty.DotnetType
               (DotnetTypeRef.new none (arr_name mangle element_count element)),
               Ty.USize, element], output := Ty.Void },
           name := "set_Item", locals := [],
           ops := [CILOp.LDArg 0,
             CILOp.LDFieldAdress ⟨DotnetTypeRef.new none
               (arr_name mangle element_count element), element, "f_0"⟩,
             CILOp.LDArg 1, CILOp.Add, CILOp.LDArg 2, CILOp.STObj element,
             CILOp.Ret],
           attributes := [] },
         { access := AccessModifer.Public, is_static := false,
           sig := { inputs := [Ty.DotnetType
               (DotnetTypeRef.new none (arr_name mangle element_count element)),
               Ty.USize], output := Ty.Ptr element },
           name := "get_Address", locals := [],
           ops := [CILOp.LDArg 0,
             CILOp.LDFieldAdress ⟨DotnetTypeRef.new none
               (arr_name mangle element_count element), element, "f_0"⟩,
             CILOp.LDArg 1, CILOp.Add, CILOp.Ret],
           attributes := [] },
         { access := AccessModifer.Public, is_static := false,
           sig := { inputs := [Ty.DotnetType
               (DotnetTypeRef.new none (arr_name mangle element_count element)),
               Ty.USize], output := element },
           name := "get_Item", locals := [],
           ops := [CILOp.LDArg 0,
             CILOp.LDFieldAdress ⟨DotnetTypeRef.new none
               (arr_name mangle element_count element), element, "f_0"⟩,
             CILOp.LDArg 1, CILOp.Add, CILOp.LdObj element, CILOp.Ret],
           attributes := [] }] :=
  fun _ _ _ => ⟨rfl, rfl, rfl⟩

/-- Every site kept by the deduplication came from the input list. -/
theorem dedup_sites_subset :
    ∀ (l seen : List CallSite) (k : CallSite),
      k ∈ Linker.dedup_sites l seen → k ∈ l := by
  intro l
  induction l with
  | nil => intro seen k h; simp [Linker.dedup_sites] at h
  | cons a rest ih =>
    intro seen k h
    by_cases ha : a ∈ seen
    · simp only [Linker.dedup_sites, if_pos ha] at h
      exact List.mem_cons_of_mem _ (ih seen k h)
    · simp only [Linker.dedup_sites, if_neg ha] at h
      rcases List.mem_cons.mp h with h | h
      · exact h ▸ List.mem_cons_self a rest
      · exact List.mem_cons_of_mem _ (ih _ k h)

/-- A site already seen is never kept again. -/
theorem dedup_sites_count_zero :
    ∀ (l seen : List CallSite) (c : CallSite),
      c ∈ seen → (Linker.dedup_sites l seen).count c = 0 := by
  intro l
  induction l with
  | nil => intro seen c _; simp [Linker.dedup_sites]
  | cons a rest ih =>
    intro seen c hc
    by_cases ha : a ∈ seen
    · simp only [Linker.dedup_sites, if_pos ha]
      exact ih seen c hc
    · simp only [Linker.dedup_sites, if_neg ha]
      have hne : c ≠ a := fun h => ha (h ▸ hc)
      rw [List.count_cons_of_ne hne]
      exact ih (a :: seen) c (List.mem_cons_of_mem _ hc)

/-- An unseen site of the input list is kept exactly once. -/
theorem dedup_sites_count_one :
    ∀ (l seen : List CallSite) (c : CallSite),
      c ∈ l → c ∉ seen → (Linker.dedup_sites l seen).count c = 1 := by
  intro l
  induction l with
  | nil => intro seen c hc _; simp at hc
  | cons a rest ih =>
    intro seen c hmem hseen
    by_cases ha : a ∈ seen
    · simp only [Linker.dedup_sites, if_pos ha]
      rcases List.mem_cons.mp hmem with h | h
      · exact absurd (h ▸ ha) hseen
      · exact ih seen c h hseen
    · simp only [Linker.dedup_sites, if_neg ha]
      by_cases hca : c = a
      · subst hca
        rw [List.count_cons_self]
        rw [dedup_sites_count_zero rest (c :: seen) c (List.mem_cons_self c seen)]
      · rw [List.count_cons_of_ne hca]
        rcases List.mem_cons.mp hmem with h | h
        · exact absurd h hca
        · refine ih (a :: seen) c h ?_
          intro hx
          rcases List.mem_cons.mp hx with h2 | h2
          · exact hca h2
          · exact hseen h2

/-- Call sites agreeing on all four components are equal. -/
theorem callsite_eq_of (k c : CallSite) (h1 : k.cls = c.cls) (h2 : k.name = c.name)
    (h3 : k.signature = c.signature) (h4 : k.is_static = c.is_static) : k = c := by
  cases k; cases c; simp_all

/-- Among stubs generated for static class-less sites, a stub matches a
static class-less site's name and signature exactly when it was generated
for that site, so the stub count equals the site's occurrence count. -/
theorem patch_countP (c : CallSite) (hc : c.is_static = true ∧ c.cls = none) :
    ∀ (ks : List CallSite), (∀ k ∈ ks, k.is_static = true ∧ k.cls = none) →
      (ks.map Linker.patch_missing_method).countP
        (fun m => decide (m.name = c.name ∧ m.sig = c.signature)) = ks.count c := by
  intro ks
  induction ks with
  | nil => intro _; rfl
  | cons k rest ih =>
    intro hall
    have hk := hall k (List.mem_cons_self k rest)
    have htail := ih fun x hx => hall x (List.mem_cons_of_mem _ hx)
    simp only [List.map_cons, List.countP_cons]
    by_cases hkc : k = c
    · subst hkc
      have hp : (decide ((Linker.patch_missing_method k).name = k.name ∧
          (Linker.patch_missing_method k).sig = k.signature)) = true := by
        simp [Linker.patch_missing_method, Method.new, Method.set_ops]
      rw [List.count_cons_self, hp, htail]
      simp
    · have hp : (decide ((Linker.patch_missing_method k).name = c.name ∧
          (Linker.patch_missing_method k).sig = c.signature)) = false := by
        apply decide_eq_false
        rintro ⟨hname, hsig⟩
        exact hkc (callsite_eq_of k c (by rw [hk.2, hc.2]) hname hsig
          (by rw [hk.1, hc.1]))
      rw [List.count_cons_of_ne (fun h => hkc h.symm), hp, htail]
      simp

/-- The defining properties of membership in `unresolved_sites`. -/
theorem unresolved_props (asm : Linker.Assembly) (c : CallSite)
    (h : c ∈ asm.unresolved_sites) :
    c.is_static = true ∧ c.cls = none ∧ asm.contains_fn_named c.name = false := by
  simp only [Linker.Assembly.unresolved_sites, List.mem_filter] at h
  obtain ⟨⟨_, h1⟩, h2⟩ := h
  simp only [Bool.and_eq_true] at h1
  exact ⟨h1.1, Option.isNone_iff_eq_none.mp h1.2, by simpa using h2⟩

/-- C4: after autopatch, every static class-less call site whose name
matches no method of the assembly is answered by exactly one synthesised
private static stub with the site's name and signature, whose body is
`LdStr "Tried to invoke missing method <name>"`,
`NewObj(System.Exception..ctor(string))`, `Throw`; duplicate occurrences
of the same site produce one stub. -/
theorem autopatch_unique_stub :
    ∀ (asm : Linker.Assembly) (c : CallSite), c ∈ asm.unresolved_sites →
      (Linker.autopatch asm).methods.countP
        (fun m => decide (m.name = c.name ∧ m.sig = c.signature)) = 1 ∧
      ({ access := AccessModifer.Private, is_static := true, sig := c.signature,
         name := c.name, locals := [],
         ops := [CILOp.LdStr ("Tried to invoke missing method " ++ c.name),
           CILOp.NewObj (CallSite.new (some exception_class) ".ctor"
             { inputs := [Ty.DotnetType exception_class, Ty.DotnetType string_class],
               output := Ty.Void } false),
           CILOp.Throw], attributes := [] } : Method) ∈
        (Linker.autopatch asm).methods := by
  intro asm c hc
  obtain ⟨hstat, hcls, hcont⟩ := unresolved_props asm c hc
  have hmethods : (Linker.autopatch asm).methods =
      asm.methods ++
        (Linker.dedup_sites asm.unresolved_sites []).map
          Linker.patch_missing_method := rfl
  constructor
  · rw [hmethods, List.countP_append]
    have h0 : asm.methods.countP
        (fun m => decide (m.name = c.name ∧ m.sig = c.signature)) = 0 := by
      apply List.countP_eq_zero.mpr
      intro m hm
      have hne : ¬ (m.name = c.name) := by
        have hall := List.any_eq_false.mp hcont
        simpa using hall m hm
      simp [hne]
    have hsub : ∀ k ∈ Linker.dedup_sites asm.unresolved_sites [],
        k.is_static = true ∧ k.cls = none := by
      intro k hk
      have hk' := unresolved_props asm k (dedup_sites_subset _ _ _ hk)
      exact ⟨hk'.1, hk'.2.1⟩
    rw [h0, patch_countP c ⟨hstat, hcls⟩ _ hsub,
      dedup_sites_count_one _ _ _ hc (by simp)]
  · have hcnt := dedup_sites_count_one asm.unresolved_sites [] c hc (by simp)
    have hmem : c ∈ Linker.dedup_sites asm.unresolved_sites [] := by
      have hpos : 0 < (Linker.dedup_sites asm.unresolved_sites []).count c := by
        omega
      exact List.count_pos_iff.mp hpos
    show Linker.patch_missing_method c ∈ (Linker.autopatch asm).methods
    rw [hmethods]
    exact List.mem_append_right _ (List.mem_map_of_mem _ hmem)

/-- Witness for C4: an assembly whose only method calls the undefined
static `bar : () → Void`. -/
theorem autopatch_unique_stub_witness :
    CallSite.new none "bar" ⟨[], Ty.Void⟩ true ∈
      (Linker.Assembly.mk
        [⟨AccessModifer.Public, true, ⟨[], Ty.Void⟩, "main", [],
          [CILOp.Call (CallSite.new none "bar" ⟨[], Ty.Void⟩ true), CILOp.Ret],
          []⟩]).unresolved_sites ∧
    ((Linker.autopatch (Linker.Assembly.mk
        [⟨AccessModifer.Public, true, ⟨[], Ty.Void⟩, "main", [],
          [CILOp.Call (CallSite.new none "bar" ⟨[], Ty.Void⟩ true), CILOp.Ret],
          []⟩])).methods.countP
        (fun m => decide (m.name = (CallSite.new none "bar" ⟨[], Ty.Void⟩ true).name ∧
          m.sig = (CallSite.new none "bar" ⟨[], Ty.Void⟩ true).signature)) = 1 ∧
      ({ access := AccessModifer.Private, is_static := true,
         sig := (CallSite.new none "bar" ⟨[], Ty.Void⟩ true).signature,
         name := (CallSite.new none "bar" ⟨[], Ty.Void⟩ true).name, locals := [],
         ops := [CILOp.LdStr ("Tried to invoke missing method " ++
             (CallSite.new none "bar" ⟨[], Ty.Void⟩ true).name),
           CILOp.NewObj (CallSite.new (some exception_class) ".ctor"
             { inputs := [Ty.DotnetType exception_class, Ty.DotnetType string_class],
               output := Ty.Void } false),
           CILOp.Throw], attributes := [] } : Method) ∈
        (Linker.autopatch (Linker.Assembly.mk
          [⟨AccessModifer.Public, true, ⟨[], Ty.Void⟩, "main", [],
            [CILOp.Call (CallSite.new none "bar" ⟨[], Ty.Void⟩ true), CILOp.Ret],
            []⟩])).methods) :=
  ⟨by decide,
   autopatch_unique_stub
     (Linker.Assembly.mk
       [⟨AccessModifer.Public, true, ⟨[], Ty.Void⟩, "main", [],
         [CILOp.Call (CallSite.new none "bar" ⟨[], Ty.Void⟩ true), CILOp.Ret],
         []⟩])
     (CallSite.new none "bar" ⟨[], Ty.Void⟩ true) (by decide)⟩
